import Mathlib

/-!
Verification development for the stats-tracker encryption pipeline.

The JavaScript core being modelled lives in three scripts that share the same
primitives (hex codec, chained PBKDF2 key derivation, AES-CBC wrapper):
  * the full-publish encryption script (scripts/encrypt.js),
  * the data-only encryption script,
  * the decryption script.

Modelling conventions (shallow embedding):
  * JavaScript strings are `List Char`; byte sequences (Uint8Array contents)
    are `List Nat` with values < 256 where the code guarantees it.
  * WebCrypto primitives that are external to the repository (the AES block
    cipher core, PBKDF2's deriveBits, TextEncoder/TextDecoder) are abstracted
    as structures whose fields carry exactly the algebraic laws those
    primitives satisfy; everything the scripts implement themselves
    (hex codec, CBC chaining, PKCS#7 padding, wire format, key-derivation
    chaining, workflow orchestration) is modelled concretely.
  * `process.exit(n)` and uncaught thrown errors (which the scripts catch at
    top level and turn into `process.exit(1)`) are modelled as returning an
    exit code; filesystem effects are explicit state passing over `FS`.
-/

namespace StatsTracker

/-! ### JavaScript `parseInt(s, 16)` semantics

`HexEncoder.parse` in all three scripts decodes each 2-character pair with
`parseInt(pair, 16)` and only rejects the pair when the result `isNaN`.
ECMAScript `parseInt` trims leading StrWhiteSpace, accepts an optional sign,
strips an optional `0x`/`0X` prefix when the radix is 16, and then reads the
longest prefix of hex digits, returning NaN only when that prefix is empty. -/

/-- ECMAScript StrWhiteSpaceChar: WhiteSpace and LineTerminator code points
(TAB, LF, VT, FF, CR, SP, NBSP, the Zs category, LS, PS, ZWNBSP). -/
def isJsWhitespace (ch : Char) : Bool :=
  ch.toNat ∈ [0x9, 0xA, 0xB, 0xC, 0xD, 0x20, 0xA0, 0x1680,
    0x2000, 0x2001, 0x2002, 0x2003, 0x2004, 0x2005, 0x2006, 0x2007,
    0x2008, 0x2009, 0x200A, 0x2028, 0x2029, 0x202F, 0x205F, 0x3000, 0xFEFF]

/-- Radix-16 digit recognizer: 0-9, a-f, A-F. -/
def isHexDigitChar (ch : Char) : Bool :=
  (48 ≤ ch.toNat && ch.toNat ≤ 57) ||
  (97 ≤ ch.toNat && ch.toNat ≤ 102) ||
  (65 ≤ ch.toNat && ch.toNat ≤ 70)

/-- Numeric value of a radix-16 digit. -/
def hexDigitVal (ch : Char) : Nat :=
  if ch.toNat ≤ 57 then ch.toNat - 48
  else if 97 ≤ ch.toNat then ch.toNat - 87
  else ch.toNat - 55

/-- Radix-16 `parseInt` strips a leading zero-ex marker. -/
def stripHexMarker (s : List Char) : List Char :=
  if s.take 2 = ['0', 'x'] ∨ s.take 2 = ['0', 'X'] then s.drop 2 else s

/-- ECMAScript `parseInt(s, 16)`; `none` models NaN: trim leading
StrWhiteSpace, read an optional sign, strip an optional zero-ex marker, then
take the longest prefix of hex digits — empty means NaN, otherwise the
signed value of those digits. -/
def jsParseInt16 (s : List Char) : Option Int :=
  let t := s.dropWhile isJsWhitespace
  let sign : Int := if t.head? = some '-' then -1 else 1
  let t1 : List Char :=
    if t.head? = some '-' ∨ t.head? = some '+' then t.tail else t
  let ds := (stripHexMarker t1).takeWhile isHexDigitChar
  if ds = [] then none
  else some (sign * (ds.foldl (fun a ch => 16 * a + hexDigitVal ch) 0 : Nat))

/-! ### HexEncoder (identical in all three scripts) -/

/-- JavaScript `b.toString(16)` left-padded to two characters, as in
`HexEncoder.stringify`'s loop body. -/
def byteToHex (b : Nat) : List Char :=
  let s := Nat.toDigits 16 b
  if s.length < 2 then '0' :: s else s

namespace HexEncoder

/-- The loop of `HexEncoder.parse`: decode consecutive 2-character pairs with
`parseInt(pair, 16)`, failing when a pair is NaN; each decoded value is stored
into a `Uint8Array` slot, i.e. reduced modulo 256 (`ToUint8`). The single-char
case is unreachable under the even-length guard but maps to failure. -/
def parsePairs : List Char → Option (List Nat)
  | [] => some []
  | c1 :: c2 :: rest =>
    match jsParseInt16 [c1, c2] with
    | none => none
    | some v => (parsePairs rest).map fun bs => (v % 256).toNat :: bs
  | _ => none

/-- `HexEncoder.parse`: throws on odd length, otherwise decodes pairs. -/
def parse (s : List Char) : Option (List Nat) :=
  if s.length % 2 ≠ 0 then none else parsePairs s

/-- `HexEncoder.stringify`: two lowercase hex characters per byte. -/
def stringify (bytes : List Nat) : List Char :=
  (bytes.map byteToHex).flatten

end HexEncoder

/-- The consecutive 2-character pairs that `HexEncoder.parse` decodes. -/
def pairsOf : List Char → List (List Char)
  | c1 :: c2 :: rest => [c1, c2] :: pairsOf rest
  | _ => []

/-! ### External WebCrypto primitives, abstracted -/

/-- Hash algorithms named by the scripts' PBKDF2 calls. -/
inductive HashAlg where
  | SHA1
  | SHA256
  deriving DecidableEq

/-- Abstraction of the TextEncoder/TextDecoder pair (`UTF8Encoder` in the
scripts): `parse` encodes a string to its UTF-8 bytes, `stringify` decodes.
The laws are the two facts the scripts rely on: encoded bytes are bytes, and
decoding inverts encoding. -/
structure UTF8Encoder where
  parse : List Char → List Nat
  stringify : List Nat → List Char
  parse_lt : ∀ s, ∀ b ∈ parse s, b < 256
  stringify_parse : ∀ s, stringify (parse s) = s

/-- Abstraction of `crypto.subtle.deriveBits` for PBKDF2, taking password
bytes, salt bytes, the iteration count and the hash; the scripts always
request 256 bits, so the laws say the output is 32 bytes. -/
structure PBKDF2Bits where
  deriveBits : List Nat → List Nat → Nat → HashAlg → List Nat
  length_eq : ∀ pw s it h, (deriveBits pw s it h).length = 32
  lt_256 : ∀ pw s it h, ∀ b ∈ deriveBits pw s it h, b < 256

/-- Abstraction of the AES block-cipher core behind WebCrypto's `AES-CBC`:
`enc k` and `dec k` act on 16-byte blocks and invert each other; the laws are
stated for well-formed blocks. -/
structure AESCore where
  enc : List Nat → List Nat → List Nat
  dec : List Nat → List Nat → List Nat
  dec_enc : ∀ k b, b.length = 16 → (∀ x ∈ b, x < 256) → dec k (enc k b) = b
  enc_length : ∀ k b, b.length = 16 → (∀ x ∈ b, x < 256) → (enc k b).length = 16
  enc_lt : ∀ k b, b.length = 16 → (∀ x ∈ b, x < 256) → ∀ x ∈ enc k b, x < 256

/-! ### Key derivation (`pbkdf2` / `hashPassword` in the scripts) -/

/-- The scripts' `pbkdf2(password, salt, iterations, hashAlgorithm)`: import
the UTF-8 bytes of the password string, derive 256 bits against the UTF-8
bytes of the salt string, and hex-encode the result. -/
def pbkdf2 (P : PBKDF2Bits) (U : UTF8Encoder) (password salt : List Char)
    (iterations : Nat) (hashAlgorithm : HashAlg) : List Char :=
  HexEncoder.stringify
    (P.deriveBits (U.parse password) (U.parse salt) iterations hashAlgorithm)

/-- `hashPassword(password, salt)` exactly as written in all three scripts:
round 1 with 1000 iterations of SHA-1, round 2 with 14000 iterations of
SHA-256, round 3 with 585000 iterations of SHA-256, each round consuming the
previous round's hex output string as its password and the same salt. -/
def hashPassword (P : PBKDF2Bits) (U : UTF8Encoder)
    (password salt : List Char) : List Char :=
  let hashedPassword1 := pbkdf2 P U password salt 1000 HashAlg.SHA1
  let hashedPassword2 := pbkdf2 P U hashedPassword1 salt 14000 HashAlg.SHA256
  pbkdf2 P U hashedPassword2 salt 585000 HashAlg.SHA256

/-- KeyDerivation as the spec words it: pass 1 on the password, 1,000
iterations of SHA-1, 256-bit output hex-encoded; pass 2 on the hex output of
pass 1 treated as a UTF-8 string (not decoded back to bytes), 14,000
iterations of SHA-256, hex-encoded; pass 3 on the hex output of pass 2,
585,000 iterations of SHA-256, hex-encoded; every pass uses the same salt and
the hex output of pass 3 is the final DerivedKey. -/
def derive_spec (P : PBKDF2Bits) (U : UTF8Encoder)
    (password salt : List Char) : List Char :=
  let pass1 := HexEncoder.stringify
    (P.deriveBits (U.parse password) (U.parse salt) 1000 HashAlg.SHA1)
  let pass2 := HexEncoder.stringify
    (P.deriveBits (U.parse pass1) (U.parse salt) 14000 HashAlg.SHA256)
  let pass3 := HexEncoder.stringify
    (P.deriveBits (U.parse pass2) (U.parse salt) 585000 HashAlg.SHA256)
  pass3

/-! ### The `AES-CBC` algorithm of WebCrypto: PKCS#7 padding + CBC chaining -/

/-- PKCS#7 padding to 16-byte blocks, applied by AES-CBC encryption: append
p copies of p where p = 16 - (len mod 16), so 1 ≤ p ≤ 16. -/
def pkcs7pad (m : List Nat) : List Nat :=
  let p := 16 - m.length % 16
  m ++ List.replicate p p

/-- PKCS#7 unpadding applied by AES-CBC decryption: the last byte p must lie
in 1..16 and the last p bytes must all equal p, else the operation errors. -/
def pkcs7unpad (m : List Nat) : Option (List Nat) :=
  match m.getLast? with
  | none => none
  | some p =>
    if 1 ≤ p ∧ p ≤ 16 ∧ p ≤ m.length ∧ (m.drop (m.length - p)).all (· == p) then
      some (m.take (m.length - p))
    else none

/-- Split a byte sequence into consecutive 16-byte blocks. -/
def chunks16 (l : List Nat) : List (List Nat) :=
  if h : l = [] then []
  else
    have : (l.drop 16).length < l.length := by
      have hl : 0 < l.length := List.length_pos.mpr h
      simp only [List.length_drop]
      omega
    l.take 16 :: chunks16 (l.drop 16)
termination_by l.length

/-- Byte-wise XOR of two equal-length blocks. -/
def xorBlock (a b : List Nat) : List Nat := List.zipWith (· ^^^ ·) a b

/-- CBC encryption over a block list: each plaintext block is XORed with the
previous ciphertext block (the IV for the first block) and enciphered. -/
def cbcEnc (C : AESCore) (key prev : List Nat) : List (List Nat) → List (List Nat)
  | [] => []
  | b :: rest =>
    let c := C.enc key (xorBlock prev b)
    c :: cbcEnc C key c rest

/-- CBC decryption over a block list, the inverse chaining of `cbcEnc`. -/
def cbcDec (C : AESCore) (key prev : List Nat) : List (List Nat) → List (List Nat)
  | [] => []
  | c :: rest => xorBlock prev (C.dec key c) :: cbcDec C key c rest

/-- Raw AES key lengths accepted by `crypto.subtle.importKey`. -/
def aesKeyLengthOk (key : List Nat) : Bool :=
  key.length == 16 || key.length == 24 || key.length == 32

/-- WebCrypto `crypto.subtle.encrypt({name: AES-CBC, iv}, key, data)`:
requires a valid raw key and a 16-byte IV, PKCS#7-pads the data and
CBC-chains the cipher core; `none` models a thrown error. -/
def subtleEncrypt (C : AESCore) (key iv data : List Nat) : Option (List Nat) :=
  if aesKeyLengthOk key ∧ iv.length = 16 then
    some ((cbcEnc C key iv (chunks16 (pkcs7pad data))).flatten)
  else none

/-- WebCrypto `crypto.subtle.decrypt({name: AES-CBC, iv}, key, data)`:
requires a valid raw key, a 16-byte IV and a whole number of blocks;
CBC-decrypts and checks/strips the PKCS#7 padding. -/
def subtleDecrypt (C : AESCore) (key iv data : List Nat) : Option (List Nat) :=
  if aesKeyLengthOk key ∧ iv.length = 16 ∧ data.length % 16 = 0 then
    pkcs7unpad ((cbcDec C key iv (chunks16 data)).flatten)
  else none

/-! ### CipherEngine wrappers (`encrypt` / `decrypt` in the scripts) -/

/-- Crypto constant from the scripts: bits of the IV. -/
def IV_BITS : Nat := 16 * 8

/-- Crypto constant from the decryption script: bits per hex character. -/
def HEX_BITS : Nat := 4

/-- `encrypt(msg, hashedPassword)` from the encryption scripts, with the
fresh 16 random bytes of the IV made explicit as a parameter: import the
hex-decoded key, AES-CBC-encrypt the UTF-8 bytes of the message, and return
`HexEncoder.stringify(iv) + HexEncoder.stringify(encrypted)`. -/
def encrypt (C : AESCore) (U : UTF8Encoder) (iv : List Nat)
    (msg hashedPassword : List Char) : Option (List Char) :=
  match HexEncoder.parse hashedPassword with
  | none => none
  | some key =>
    match subtleEncrypt C key iv (U.parse msg) with
    | none => none
    | some encrypted =>
      some (HexEncoder.stringify iv ++ HexEncoder.stringify encrypted)

/-- `decrypt(encryptedMsg, hashedPassword)` from the decryption script: take
the first `IV_BITS / HEX_BITS` characters as the hex IV and the rest as hex
ciphertext, import the hex-decoded key, AES-CBC-decrypt, decode UTF-8. -/
def decrypt (C : AESCore) (U : UTF8Encoder)
    (encryptedMsg hashedPassword : List Char) : Option (List Char) :=
  let ivLength := IV_BITS / HEX_BITS
  match HexEncoder.parse (encryptedMsg.take ivLength) with
  | none => none
  | some iv =>
    match HexEncoder.parse hashedPassword with
    | none => none
    | some key =>
      match HexEncoder.parse (encryptedMsg.drop ivLength) with
      | none => none
      | some encryptedBytes =>
        match subtleDecrypt C key iv encryptedBytes with
        | none => none
        | some out => some (U.stringify out)

/-- CipherEngine.decrypt as the spec words it: split the first 32 hex
characters as the IV and the remainder as the ciphertext, decrypt, and decode
UTF-8; any failure (malformed hex, bad key, bad padding) is an error. -/
def decrypt_spec (C : AESCore) (U : UTF8Encoder)
    (artifact hashedPassword : List Char) : Option (List Char) :=
  match HexEncoder.parse (artifact.take 32), HexEncoder.parse hashedPassword,
      HexEncoder.parse (artifact.drop 32) with
  | some iv, some key, some encryptedBytes =>
    (subtleDecrypt C key iv encryptedBytes).map U.stringify
  | _, _, _ => none

/-! ### Workflow orchestration

The three `main` functions are embedded as explicit state transformers over
the filesystem locations they touch. Each returns the process exit code, the
final filesystem state, and the ordered list of observable write/delete/exec
events, so that the temporal claims about step ordering can be stated. -/

/-- The persisted config record `{ "salt": ... }` (`.staticrypt.json`). -/
structure ConfigFile where
  salt : List Char
  deriving DecidableEq

/-- The filesystem locations used by the scripts. `none` means the file is
absent. `encryptedDir` is `encrypted/index.html`, the external generator's
output location. -/
structure FS where
  stats : Option (List Char)
  statsEnc : Option (List Char)
  indexHtml : Option (List Char)
  indexBak : Option (List Char)
  config : Option ConfigFile
  encryptedDir : Option (List Char)
  deriving DecidableEq

/-- Observable side effects of the workflows, in execution order. -/
inductive Event where
  | wroteConfig
  | wroteStatsEnc
  | restoredIndex
  | createdBackup
  | patchedIndex
  | ranStaticrypt
  | postProcessedIndex
  | deletedStats
  | wroteStats
  deriving DecidableEq

/-- Externals of the full-publish script: whether the StatiCrypt generator
invocation succeeds, the `encrypted/index.html` content it leaves behind on
success, and the two textual transforms the script performs (the head/salt/
loadData patching of index.html, taking the salt and the original html, and
the logo/remember-me post-processing of the generator output). The transforms
are fixed string substitutions in the source; their content is irrelevant to
the claims, so they are abstracted as functions. -/
structure PublishExt where
  staticryptOk : Bool
  staticryptOutput : Option (List Char)
  patchHtml : List Char → List Char → List Char
  postHtml : List Char → List Char

/-- `generateRandomSalt()`: 16 cryptographically random bytes (made explicit
as the `entropy` parameter), hex-encoded. -/
def generateRandomSalt (entropy : List Nat) : List Char :=
  HexEncoder.stringify entropy

/-- `loadOrCreateConfig()` from the full-publish script: return the persisted
config when present; otherwise generate a fresh salt, persist it, return it. -/
def loadOrCreateConfig (entropy : List Nat) (fs : FS) :
    ConfigFile × FS × List Event :=
  match fs.config with
  | some config => (config, fs, [])
  | none =>
    let config : ConfigFile := ⟨generateRandomSalt entropy⟩
    (config, { fs with config := some config }, [Event.wroteConfig])

/-- Tail of the full-publish `main()` from the point where `index.html` has
been restored/backed up: patch and rewrite `index.html`, shell out to
StatiCrypt, post-process its output when `encrypted/index.html` exists, and
delete the plaintext artifact last. -/
def encryptPublishTail (ext : PublishExt)
    (indexHtml : List Char) (fs : FS) (ev : List Event) (salt : List Char) :
    Nat × FS × List Event :=
  let patched := ext.patchHtml salt indexHtml
  let fs4 : FS := { fs with indexHtml := some patched }
  let ev4 := ev ++ [Event.patchedIndex]
  if ext.staticryptOk then
    let ev5 := ev4 ++ [Event.ranStaticrypt]
    let fs5 : FS := { fs4 with encryptedDir := ext.staticryptOutput }
    match ext.staticryptOutput with
    | some encryptedHtml =>
      let fs6 : FS := { fs5 with
        indexHtml := some (ext.postHtml encryptedHtml), encryptedDir := none }
      let ev6 := ev5 ++ [Event.postProcessedIndex]
      match fs6.stats with
      | some _ => (0, { fs6 with stats := none }, ev6 ++ [Event.deletedStats])
      | none => (0, fs6, ev6)
    | none =>
      match fs5.stats with
      | some _ => (0, { fs5 with stats := none }, ev5 ++ [Event.deletedStats])
      | none => (0, fs5, ev5)
  else (1, fs4, ev4 ++ [Event.ranStaticrypt])

/-- `main()` of the full-publish encryption script, step for step: require
the password, require `data/stats.json`, load-or-create the salt config,
derive the key, encrypt and write `data/stats.json.enc`, restore or create
the `index.html` backup, patch `index.html`, invoke StatiCrypt (aborting with
exit 1 on failure), post-process `encrypted/index.html` when present, and
finally delete the plaintext `data/stats.json`. Thrown errors reach the
top-level catch and exit 1. -/
def encryptMain (C : AESCore) (P : PBKDF2Bits) (U : UTF8Encoder)
    (ext : PublishExt) (password : Option (List Char)) (iv entropy : List Nat)
    (fs : FS) : Nat × FS × List Event :=
  match password with
  | none => (1, fs, [])
  | some pw =>
    match fs.stats with
    | none => (1, fs, [])
    | some dataContent =>
      let (config, fs1, ev1) := loadOrCreateConfig entropy fs
      let hashedPassword := hashPassword P U pw config.salt
      match encrypt C U iv dataContent hashedPassword with
      | none => (1, fs1, ev1)
      | some encryptedData =>
        let fs2 : FS := { fs1 with statsEnc := some encryptedData }
        let ev2 := ev1 ++ [Event.wroteStatsEnc]
        match fs2.indexBak with
        | some bak =>
          encryptPublishTail ext bak
            { fs2 with indexHtml := some bak } (ev2 ++ [Event.restoredIndex])
            config.salt
        | none =>
          match fs2.indexHtml with
          | none => (1, fs2, ev2)
          | some indexHtml =>
            encryptPublishTail ext indexHtml
              { fs2 with indexBak := some indexHtml }
              (ev2 ++ [Event.createdBackup]) config.salt

/-- `main()` of the data-only encryption script, step for step: require the
password, require `data/stats.json`, require the salt config (exiting 1
without ever creating one), derive the key, encrypt and write
`data/stats.json.enc`, then unlink the plaintext `data/stats.json`. -/
def dataEncryptMain (C : AESCore) (P : PBKDF2Bits) (U : UTF8Encoder)
    (password : Option (List Char)) (iv : List Nat) (fs : FS) :
    Nat × FS × List Event :=
  match password with
  | none => (1, fs, [])
  | some pw =>
    match fs.stats with
    | none => (1, fs, [])
    | some dataContent =>
      match fs.config with
      | none => (1, fs, [])
      | some config =>
        let hashedPassword := hashPassword P U pw config.salt
        match encrypt C U iv dataContent hashedPassword with
        | none => (1, fs, [])
        | some encryptedData =>
          (0, { fs with statsEnc := some encryptedData, stats := none },
            [Event.wroteStatsEnc, Event.deletedStats])

/-- `main()` of the decryption script, step for step: require the password,
exit 0 as a no-op when `data/stats.json.enc` is absent, require the salt
config, derive the key, decrypt, validate the plaintext with `JSON.parse`
(abstracted as the predicate `jsonOk`), and only then write
`data/stats.json`; any failure in the try block exits 1. -/
def decryptMain (C : AESCore) (P : PBKDF2Bits) (U : UTF8Encoder)
    (jsonOk : List Char → Bool) (password : Option (List Char)) (fs : FS) :
    Nat × FS × List Event :=
  match password with
  | none => (1, fs, [])
  | some pw =>
    match fs.statsEnc with
    | none => (0, fs, [])
    | some encryptedData =>
      match fs.config with
      | none => (1, fs, [])
      | some config =>
        let hashedPassword := hashPassword P U pw config.salt
        match decrypt C U encryptedData hashedPassword with
        | none => (1, fs, [])
        | some decryptedData =>
          if jsonOk decryptedData then
            (0, { fs with stats := some decryptedData }, [Event.wroteStats])
          else (1, fs, [])

/-! ### Concrete instances of the abstract primitives

The claim theorems are proved for every cipher/codec/PBKDF2 satisfying the
laws; these instances are used only to evaluate the theorems at explicit
concrete inputs. -/

/-- Encode one character as four bytes, little-endian base 256. -/
def charBytes (c : Char) : List Nat :=
  [c.toNat % 256, c.toNat / 256 % 256, c.toNat / 65536 % 256, c.toNat / 16777216]

/-- Decode the 4-byte groups produced by `charBytes`. -/
def unCharBytes : List Nat → List Char
  | a :: b :: c :: d :: rest =>
    Char.ofNat (a + 256 * b + 65536 * c + 16777216 * d) :: unCharBytes rest
  | _ => []

/-- A text codec satisfying the `UTF8Encoder` laws. -/
def demoCodec : UTF8Encoder where
  parse s := (s.map charBytes).flatten
  stringify := unCharBytes
  parse_lt := by
    intro s b hb
    simp only [List.mem_flatten, List.mem_map] at hb
    obtain ⟨l, ⟨c, _, rfl⟩, hbl⟩ := hb
    have hc : c.toNat < 4294967296 := c.val.val.isLt
    simp only [charBytes, List.mem_cons, List.not_mem_nil, or_false] at hbl
    rcases hbl with rfl | rfl | rfl | rfl
    · omega
    · omega
    · omega
    · exact (Nat.div_lt_iff_lt_mul (by omega)).mpr (by omega)
  stringify_parse := by
    intro s
    induction s with
    | nil => rfl
    | cons c cs ih =>
      simp only [List.map_cons, List.flatten_cons, charBytes, List.cons_append,
        List.nil_append]
      rw [unCharBytes]
      have ht : c.toNat % 256 + 256 * (c.toNat / 256 % 256) +
          65536 * (c.toNat / 65536 % 256) + 16777216 * (c.toNat / 16777216) =
          c.toNat := by
        have h1 := Nat.mod_add_div c.toNat 256
        have h2 := Nat.mod_add_div (c.toNat / 256) 256
        have h3 := Nat.mod_add_div (c.toNat / 65536) 256
        have e1 : c.toNat / 256 / 256 = c.toNat / 65536 := by
          rw [Nat.div_div_eq_div_mul]
        have e2 : c.toNat / 65536 / 256 = c.toNat / 16777216 := by
          rw [Nat.div_div_eq_div_mul]
        omega
      rw [ht, Char.ofNat_toNat]
      exact congrArg _ ih

/-- A PBKDF2 primitive satisfying the `PBKDF2Bits` laws. -/
def demoPBKDF2 : PBKDF2Bits where
  deriveBits _ _ _ _ := List.replicate 32 0
  length_eq := by intro pw s it h; simp
  lt_256 := by
    intro pw s it h b hb
    have : b = 0 := List.eq_of_mem_replicate hb
    omega

/-- A block-cipher core satisfying the `AESCore` laws. -/
def demoAES : AESCore where
  enc _ b := b
  dec _ b := b
  dec_enc := fun _ _ _ _ => rfl
  enc_length := fun _ _ h _ => h
  enc_lt := fun _ _ _ h => h

/-- A demonstration filesystem state: plaintext artifact and host document
present, salt config persisted, no encrypted artifact yet. -/
def demoFS : FS where
  stats := some ['x']
  statsEnc := none
  indexHtml := some []
  indexBak := none
  config := some ⟨['s']⟩
  encryptedDir := none

/-- The demonstration filesystem state without a persisted salt config. -/
def demoFSNoCfg : FS where
  stats := some ['x']
  statsEnc := none
  indexHtml := some []
  indexBak := none
  config := none
  encryptedDir := none

/-- Externals of the full-publish workflow in which the StatiCrypt generator
invocation fails. -/
def demoExtFail : PublishExt where
  staticryptOk := false
  staticryptOutput := none
  patchHtml := fun _ h => h
  postHtml := id

end StatsTracker

namespace StatsTracker

set_option maxRecDepth 100000 in
/-- Key fact about the codec, proved by exhausting all byte values: the
two-character lowercase rendering of a byte is parsed back by JavaScript
`parseInt(-, 16)` to exactly that byte. -/
theorem jsParseInt16_byteToHex : ∀ b : Nat, b < 256 →
    (byteToHex b).length = 2 ∧ jsParseInt16 (byteToHex b) = some (b : Int) := by
  decide


/-- Every byte value renders as exactly two hex characters. -/
theorem byteToHex_length {b : Nat} (h : b < 256) : (byteToHex b).length = 2 :=
  (jsParseInt16_byteToHex b h).1

/-- Length of the hex rendering of a byte list. -/
theorem stringify_length {bs : List Nat} (h : ∀ b ∈ bs, b < 256) :
    (HexEncoder.stringify bs).length = 2 * bs.length := by
  induction bs with
  | nil => rfl
  | cons b rest ih =>
    have hb : (byteToHex b).length = 2 := byteToHex_length (h b (by simp))
    have hrest := ih (fun x hx => h x (by simp [hx]))
    simp only [HexEncoder.stringify, List.map_cons, List.flatten_cons,
      List.length_append, List.length_cons] at *
    omega

/-- Pair-wise parsing inverts hex rendering on byte lists. -/
theorem parsePairs_stringify {bs : List Nat} (h : ∀ b ∈ bs, b < 256) :
    HexEncoder.parsePairs (HexEncoder.stringify bs) = some bs := by
  induction bs with
  | nil => rfl
  | cons b rest ih =>
    have hb : b < 256 := h b (by simp)
    obtain ⟨c1, c2, hc⟩ := List.length_eq_two.mp (byteToHex_length hb)
    have hparse : jsParseInt16 [c1, c2] = some (b : Int) := by
      rw [← hc]; exact (jsParseInt16_byteToHex b hb).2
    have hmod : (((b : Int)) % 256).toNat = b := by
      rw [Int.emod_eq_of_lt (by omega) (by exact_mod_cast hb)]
      simp
    have hrest := ih (fun x hx => h x (by simp [hx]))
    simp only [HexEncoder.stringify, List.map_cons, List.flatten_cons, hc,
      List.cons_append, List.nil_append] at *
    rw [HexEncoder.parsePairs, hparse, hrest]
    simp [hmod]

/-- `HexEncoder.parse` inverts `HexEncoder.stringify` on byte lists. -/
theorem parse_stringify {bs : List Nat} (h : ∀ b ∈ bs, b < 256) :
    HexEncoder.parse (HexEncoder.stringify bs) = some bs := by
  unfold HexEncoder.parse
  rw [stringify_length h]
  simp [parsePairs_stringify h]

/-- Hex rendering is injective on byte lists. -/
theorem stringify_injective {a b : List Nat} (ha : ∀ x ∈ a, x < 256)
    (hb : ∀ x ∈ b, x < 256)
    (h : HexEncoder.stringify a = HexEncoder.stringify b) : a = b := by
  have h1 := parse_stringify ha
  rw [h, parse_stringify hb] at h1
  exact (Option.some.inj h1).symm

/-- The padded message is a whole number of blocks. -/
theorem pkcs7pad_mod (m : List Nat) : (pkcs7pad m).length % 16 = 0 := by
  simp only [pkcs7pad, List.length_append, List.length_replicate]
  omega

/-- Padding preserves byte-ness. -/
theorem pkcs7pad_lt {m : List Nat} (h : ∀ x ∈ m, x < 256) :
    ∀ x ∈ pkcs7pad m, x < 256 := by
  intro x hx
  simp only [pkcs7pad, List.mem_append] at hx
  rcases hx with hx | hx
  · exact h x hx
  · have := List.eq_of_mem_replicate hx
    omega

/-- The last element of a nonempty replicate. -/
theorem getLast_replicate_pos {α : Type} (n : Nat) (a : α) (h : 0 < n) :
    (List.replicate n a).getLast? = some a := by
  cases n with
  | zero => omega
  | succ k =>
    rw [List.getLast?_eq_getLast _ (by simp), List.getLast_replicate]

/-- PKCS#7 unpadding inverts padding. -/
theorem pkcs7unpad_pad (m : List Nat) : pkcs7unpad (pkcs7pad m) = some m := by
  have hplb : 1 ≤ 16 - m.length % 16 := by omega
  have hpub : 16 - m.length % 16 ≤ 16 := by omega
  set p := 16 - m.length % 16 with hpdef
  have hlen : (pkcs7pad m).length = m.length + p := by
    simp [pkcs7pad]
  have hlast : (pkcs7pad m).getLast? = some p := by
    show (m ++ List.replicate p p).getLast? = some p
    rw [List.getLast?_append, getLast_replicate_pos _ _ (by omega)]
    rfl
  have hsub : (pkcs7pad m).length - p = m.length := by omega
  have hdrop : (pkcs7pad m).drop ((pkcs7pad m).length - p) = List.replicate p p := by
    rw [hsub]
    show (m ++ List.replicate p p).drop m.length = List.replicate p p
    exact List.drop_left m (List.replicate p p)
  have htake : (pkcs7pad m).take ((pkcs7pad m).length - p) = m := by
    rw [hsub]
    show (m ++ List.replicate p p).take m.length = m
    exact List.take_left m (List.replicate p p)
  unfold pkcs7unpad
  rw [hlast]
  dsimp only
  rw [if_pos ⟨hplb, hpub, by omega, by rw [hdrop]; simp [List.all_eq_true]⟩]
  rw [htake]

/-- Flattening the 16-byte chunking recovers the original list. -/
theorem chunks16_flatten (l : List Nat) : (chunks16 l).flatten = l := by
  induction l using chunks16.induct with
  | case1 => simp [chunks16]
  | case2 l hl hdec ih =>
    rw [chunks16]
    simp only [dif_neg hl, List.flatten_cons, ih, List.take_append_drop]

/-- All chunks of a whole number of blocks have length 16. -/
theorem chunks16_all_length : ∀ (l : List Nat), l.length % 16 = 0 →
    ∀ c ∈ chunks16 l, c.length = 16 := by
  intro l
  induction l using chunks16.induct with
  | case1 => intro _ c hc; simp [chunks16] at hc
  | case2 l hl hdec ih =>
    intro h c hc
    have hpos : 0 < l.length := List.length_pos.mpr hl
    have h16 : 16 ≤ l.length := by omega
    rw [chunks16] at hc
    simp only [dif_neg hl, List.mem_cons] at hc
    rcases hc with rfl | hc
    · simp [List.length_take]
      omega
    · exact ih (by simp [List.length_drop]; omega) c hc

/-- All chunk entries come from the original list. -/
theorem chunks16_all_lt : ∀ (l : List Nat), (∀ x ∈ l, x < 256) →
    ∀ c ∈ chunks16 l, ∀ x ∈ c, x < 256 := by
  intro l
  induction l using chunks16.induct with
  | case1 => intro _ c hc; simp [chunks16] at hc
  | case2 l hl hdec ih =>
    intro h c hc
    rw [chunks16] at hc
    simp only [dif_neg hl, List.mem_cons] at hc
    rcases hc with rfl | hc
    · exact fun x hx => h x (List.mem_of_mem_take hx)
    · exact ih (fun x hx => h x (List.mem_of_mem_drop hx)) c hc

/-- Chunking inverts flattening of 16-byte blocks. -/
theorem chunks16_of_flatten : ∀ (bs : List (List Nat)),
    (∀ b ∈ bs, b.length = 16) → chunks16 bs.flatten = bs := by
  intro bs
  induction bs with
  | nil => intro _; simp [chunks16]
  | cons b rest ih =>
    intro h
    have hb : b.length = 16 := h b (by simp)
    have hbne : b ++ rest.flatten ≠ [] := by
      intro hc
      have := congrArg List.length hc
      simp [hb] at this
    rw [List.flatten_cons, chunks16]
    rw [dif_neg hbne]
    congr 1
    · rw [← hb]
      exact List.take_left b rest.flatten
    · rw [← hb, List.drop_left b rest.flatten]
      exact ih (fun x hx => h x (by simp [hx]))


/-- XOR of blocks of equal length preserves the length. -/
theorem xorBlock_length {a b : List Nat} (h : a.length = b.length) :
    (xorBlock a b).length = a.length := by
  simp [xorBlock, List.length_zipWith, h]

/-- XOR entries of byte blocks are bytes. -/
theorem xorBlock_lt : ∀ (a b : List Nat), (∀ x ∈ a, x < 256) →
    (∀ x ∈ b, x < 256) → ∀ x ∈ xorBlock a b, x < 256 := by
  intro a
  induction a with
  | nil => intro b _ _ x hx; simp [xorBlock] at hx
  | cons y ys ih =>
    intro b ha hb x hx
    cases b with
    | nil => simp [xorBlock] at hx
    | cons z zs =>
      simp only [xorBlock, List.zipWith_cons_cons, List.mem_cons] at hx
      rcases hx with rfl | hx
      · have h1 : y < 2 ^ 8 := by have := ha y (by simp); omega
        have h2 : z < 2 ^ 8 := by have := hb z (by simp); omega
        have := Nat.xor_lt_two_pow h1 h2
        omega
      · exact ih zs (fun u hu => ha u (by simp [hu]))
          (fun u hu => hb u (by simp [hu])) x hx

/-- XOR with the same block twice is the identity. -/
theorem xorBlock_cancel : ∀ (a b : List Nat), a.length = b.length →
    xorBlock a (xorBlock a b) = b := by
  intro a
  induction a with
  | nil =>
    intro b h
    cases b with
    | nil => rfl
    | cons y ys => simp at h
  | cons x xs ih =>
    intro b h
    cases b with
    | nil => simp at h
    | cons y ys =>
      simp only [xorBlock, List.zipWith_cons_cons]
      rw [← Nat.xor_assoc, Nat.xor_self, Nat.zero_xor]
      exact congrArg _ (ih ys (by simpa using h))

/-- CBC decryption inverts CBC encryption, and the ciphertext blocks are
well-formed, given a well-formed chaining block and plaintext blocks. -/
theorem cbcDec_cbcEnc (C : AESCore) (key : List Nat) :
    ∀ (bs : List (List Nat)) (prev : List Nat), prev.length = 16 →
      (∀ x ∈ prev, x < 256) →
      (∀ b ∈ bs, b.length = 16 ∧ ∀ x ∈ b, x < 256) →
      cbcDec C key prev (cbcEnc C key prev bs) = bs ∧
      ∀ cb ∈ cbcEnc C key prev bs, cb.length = 16 ∧ ∀ x ∈ cb, x < 256 := by
  intro bs
  induction bs with
  | nil => intro prev _ _ _; exact ⟨rfl, by simp [cbcEnc]⟩
  | cons b rest ih =>
    intro prev hplen hplt hbs
    have hb := hbs b (by simp)
    have hxlen : (xorBlock prev b).length = 16 := by
      rw [xorBlock_length (by rw [hplen, hb.1])]
      exact hplen
    have hxlt := xorBlock_lt prev b hplt hb.2
    have hclen : (C.enc key (xorBlock prev b)).length = 16 :=
      C.enc_length key _ hxlen hxlt
    have hclt := C.enc_lt key _ hxlen hxlt
    have hdec : C.dec key (C.enc key (xorBlock prev b)) = xorBlock prev b :=
      C.dec_enc key _ hxlen hxlt
    obtain ⟨ihEq, ihWf⟩ :=
      ih (C.enc key (xorBlock prev b)) hclen hclt
        (fun x hx => hbs x (by simp [hx]))
    constructor
    · show cbcDec C key prev
        (C.enc key (xorBlock prev b) ::
          cbcEnc C key (C.enc key (xorBlock prev b)) rest) = b :: rest
      rw [cbcDec, hdec, xorBlock_cancel prev b (by rw [hplen, hb.1]), ihEq]
    · intro cb hcb
      rw [cbcEnc] at hcb
      simp only [List.mem_cons] at hcb
      rcases hcb with rfl | hcb
      · exact ⟨hclen, hclt⟩
      · exact ihWf cb hcb

/-- The flattening of 16-byte blocks has length a multiple of 16. -/
theorem flatten_length_16 : ∀ (bs : List (List Nat)),
    (∀ b ∈ bs, b.length = 16) → bs.flatten.length = 16 * bs.length := by
  intro bs
  induction bs with
  | nil => intro _; rfl
  | cons b rest ih =>
    intro h
    simp only [List.flatten_cons, List.length_append, h b (by simp),
      List.length_cons, ih (fun x hx => h x (by simp [hx]))]
    ring

/-- AES-CBC decryption inverts AES-CBC encryption for a 32-byte key and a
well-formed 16-byte IV. -/
theorem subtleDecrypt_subtleEncrypt (C : AESCore) {key iv data : List Nat}
    (hkey : key.length = 32) (hivlen : iv.length = 16)
    (hivlt : ∀ x ∈ iv, x < 256) (hdata : ∀ x ∈ data, x < 256) :
    ∃ ct, subtleEncrypt C key iv data = some ct ∧ (∀ x ∈ ct, x < 256) ∧
      subtleDecrypt C key iv ct = some data := by
  have hok : aesKeyLengthOk key = true := by simp [aesKeyLengthOk, hkey]
  have hchlen := chunks16_all_length (pkcs7pad data) (pkcs7pad_mod data)
  have hchlt := chunks16_all_lt (pkcs7pad data) (pkcs7pad_lt hdata)
  obtain ⟨hdecenc, hwf⟩ :=
    cbcDec_cbcEnc C key (chunks16 (pkcs7pad data)) iv hivlen hivlt
      (fun b hb => ⟨hchlen b hb, hchlt b hb⟩)
  refine ⟨(cbcEnc C key iv (chunks16 (pkcs7pad data))).flatten, ?_, ?_, ?_⟩
  · simp [subtleEncrypt, hok, hivlen]
  · intro x hx
    obtain ⟨cb, hcb, hxcb⟩ := List.mem_flatten.mp hx
    exact (hwf cb hcb).2 x hxcb
  · have hctlen :
        (cbcEnc C key iv (chunks16 (pkcs7pad data))).flatten.length % 16 = 0 := by
      rw [flatten_length_16 _ (fun b hb => (hwf b hb).1)]
      omega
    simp only [subtleDecrypt]
    rw [if_pos ⟨hok, hivlen, hctlen⟩]
    rw [chunks16_of_flatten _ (fun b hb => (hwf b hb).1)]
    rw [hdecenc, chunks16_flatten, pkcs7unpad_pad]

/-- The derived key hex string parses back to a 32-byte key. -/
theorem hashPassword_parse (P : PBKDF2Bits) (U : UTF8Encoder)
    (password salt : List Char) :
    ∃ key, HexEncoder.parse (hashPassword P U password salt) = some key ∧
      key.length = 32 := by
  unfold hashPassword pbkdf2
  exact ⟨_, parse_stringify (P.lt_256 _ _ _ _), P.length_eq _ _ _ _⟩

/-- Round trip of the wrapper functions for any hex key string that decodes
to a 32-byte key, together with the wire format of the artifact. -/
theorem decrypt_encrypt_aux (C : AESCore) (U : UTF8Encoder)
    {iv : List Nat} {msg hashedPassword : List Char} {key : List Nat}
    (hkparse : HexEncoder.parse hashedPassword = some key)
    (hklen : key.length = 32) (hivlen : iv.length = 16)
    (hivlt : ∀ x ∈ iv, x < 256) :
    ∃ ct, (∀ x ∈ ct, x < 256) ∧
      encrypt C U iv msg hashedPassword =
        some (HexEncoder.stringify iv ++ HexEncoder.stringify ct) ∧
      decrypt C U (HexEncoder.stringify iv ++ HexEncoder.stringify ct)
        hashedPassword = some msg := by
  obtain ⟨ct, hencEq, hctlt, hdecEq⟩ :=
    subtleDecrypt_subtleEncrypt C hklen hivlen hivlt (U.parse_lt msg)
  refine ⟨ct, hctlt, ?_, ?_⟩
  · simp [encrypt, hkparse, hencEq]
  · have hivstr : (HexEncoder.stringify iv).length = 32 := by
      rw [stringify_length hivlt, hivlen]
    have hconst : IV_BITS / HEX_BITS = 32 := by norm_num [IV_BITS, HEX_BITS]
    have htake : (HexEncoder.stringify iv ++ HexEncoder.stringify ct).take 32 =
        HexEncoder.stringify iv := by
      rw [← hivstr]; exact List.take_left _ _
    have hdrop : (HexEncoder.stringify iv ++ HexEncoder.stringify ct).drop 32 =
        HexEncoder.stringify ct := by
      rw [← hivstr]; exact List.drop_left _ _
    simp only [decrypt, hconst, htake, hdrop, parse_stringify hivlt,
      parse_stringify hctlt, hkparse, hdecEq]
    rw [U.stringify_parse]


/-! ### Claim theorems -/

/-- C1: for every plaintext string P, password W and salt S, and any 16-byte
IV chosen during encryption, decrypting the output of
`encrypt(P, derive(W, S))` with the same derived key `derive(W, S)` (the
scripts' `hashPassword`) returns P exactly — AES-256-CBC with PKCS padding
over the UTF-8 bytes of P — for every AES core, PBKDF2 primitive and UTF-8
codec satisfying the laws of the real primitives. -/
theorem C1_roundtrip (C : AESCore) (P : PBKDF2Bits) (U : UTF8Encoder)
    (plaintext password salt : List Char) (iv : List Nat)
    (hivlen : iv.length = 16) (hivlt : ∀ x ∈ iv, x < 256) :
    ∃ artifact,
      encrypt C U iv plaintext (hashPassword P U password salt) =
        some artifact ∧
      decrypt C U artifact (hashPassword P U password salt) =
        some plaintext := by
  obtain ⟨key, hkparse, hklen⟩ := hashPassword_parse P U password salt
  obtain ⟨ct, _, henc, hdec⟩ :=
    decrypt_encrypt_aux C U hkparse hklen hivlen hivlt
  exact ⟨_, henc, hdec⟩

/-- Evaluation of C1 at a concrete cipher, codec, PBKDF2 primitive, IV,
plaintext, password and salt. -/
theorem C1_roundtrip_witness :
    ∃ artifact,
      encrypt demoAES demoCodec (List.replicate 16 0) ['a']
        (hashPassword demoPBKDF2 demoCodec ['p'] ['s']) = some artifact ∧
      decrypt demoAES demoCodec artifact
        (hashPassword demoPBKDF2 demoCodec ['p'] ['s']) = some ['a'] :=
  C1_roundtrip demoAES demoPBKDF2 demoCodec ['a'] ['p'] ['s']
    (List.replicate 16 0) (by simp) (by decide)

/-- C2: for every password and salt, `hashPassword` computes exactly the
three chained PBKDF2 passes of the spec — pass 1 on the password with 1,000
iterations of SHA-1; pass 2 taking the hex output of pass 1 as UTF-8 text
with 14,000 iterations of SHA-256; pass 3 taking the hex output of pass 2
with 585,000 iterations of SHA-256 — each pass producing 256 hex-encoded
bits against the same salt, the hex output of pass 3 being the DerivedKey. -/
theorem C2_derivation_chain (P : PBKDF2Bits) (U : UTF8Encoder)
    (password salt : List Char) :
    hashPassword P U password salt = derive_spec P U password salt := rfl

/-- C3: `encrypt` returns the hex IV immediately followed by the hex
ciphertext with no length prefix or authentication tag, so the first 32 hex
characters of every artifact are exactly the IV; and `decrypt` splits every
artifact positionally at character 32, agreeing with the spec-level splitter
`decrypt_spec` on all inputs. -/
theorem C3_wire_format (C : AESCore) (U : UTF8Encoder) (iv : List Nat)
    (msg hashedPassword : List Char)
    (hivlt : ∀ x ∈ iv, x < 256) (hivlen : iv.length = 16) :
    (∀ artifact, encrypt C U iv msg hashedPassword = some artifact →
      ∃ ctHex, artifact = HexEncoder.stringify iv ++ ctHex ∧
        (HexEncoder.stringify iv).length = 32 ∧
        artifact.take 32 = HexEncoder.stringify iv) ∧
    (∀ artifact hp, decrypt C U artifact hp = decrypt_spec C U artifact hp) := by
  constructor
  · intro artifact h
    have hs : (HexEncoder.stringify iv).length = 32 := by
      rw [stringify_length hivlt, hivlen]
    unfold encrypt at h
    cases hk : HexEncoder.parse hashedPassword with
    | none => simp [hk] at h
    | some key =>
      simp only [hk] at h
      cases he : subtleEncrypt C key iv (U.parse msg) with
      | none => simp [he] at h
      | some encrypted =>
        simp only [he, Option.some.injEq] at h
        have ha : artifact =
            HexEncoder.stringify iv ++ HexEncoder.stringify encrypted := h.symm
        refine ⟨HexEncoder.stringify encrypted, ha, hs, ?_⟩
        rw [ha, ← hs]
        exact List.take_left _ _
  · intro artifact hp
    have hconst : IV_BITS / HEX_BITS = 32 := by norm_num [IV_BITS, HEX_BITS]
    simp only [decrypt, decrypt_spec, hconst]
    cases HexEncoder.parse (artifact.take 32) with
    | none => rfl
    | some iv2 =>
      cases HexEncoder.parse hp with
      | none => rfl
      | some key =>
        cases HexEncoder.parse (artifact.drop 32) with
        | none => rfl
        | some ct =>
          dsimp only
          cases subtleDecrypt C key iv2 ct <;> rfl

/-- Evaluation of C3 at a concrete cipher, codec, IV, message and key. -/
theorem C3_wire_format_witness :
    (∀ artifact,
      encrypt demoAES demoCodec (List.replicate 16 0) ['a'] ['0', '0'] =
        some artifact →
      ∃ ctHex, artifact =
          HexEncoder.stringify (List.replicate 16 0) ++ ctHex ∧
        (HexEncoder.stringify (List.replicate 16 0)).length = 32 ∧
        artifact.take 32 = HexEncoder.stringify (List.replicate 16 0)) ∧
    (∀ artifact hp, decrypt demoAES demoCodec artifact hp =
      decrypt_spec demoAES demoCodec artifact hp) :=
  C3_wire_format demoAES demoCodec (List.replicate 16 0) ['a'] ['0', '0']
    (by decide) (by simp)

/-- C4: for identical plaintext and derived key but distinct 16-byte IVs,
the two artifacts produced by `encrypt` differ — already in their first 32
hex characters — and both decrypt back to the plaintext under the key. -/
theorem C4_iv_randomization (C : AESCore) (P : PBKDF2Bits) (U : UTF8Encoder)
    (plaintext password salt : List Char) (iv1 iv2 : List Nat)
    (h1len : iv1.length = 16) (h1lt : ∀ x ∈ iv1, x < 256)
    (h2len : iv2.length = 16) (h2lt : ∀ x ∈ iv2, x < 256)
    (hne : iv1 ≠ iv2) :
    ∃ a1 a2,
      encrypt C U iv1 plaintext (hashPassword P U password salt) = some a1 ∧
      encrypt C U iv2 plaintext (hashPassword P U password salt) = some a2 ∧
      a1.take 32 ≠ a2.take 32 ∧ a1 ≠ a2 ∧
      decrypt C U a1 (hashPassword P U password salt) = some plaintext ∧
      decrypt C U a2 (hashPassword P U password salt) = some plaintext := by
  obtain ⟨key, hkparse, hklen⟩ := hashPassword_parse P U password salt
  obtain ⟨ct1, hct1lt, henc1, hdec1⟩ :=
    decrypt_encrypt_aux C U hkparse hklen h1len h1lt
  obtain ⟨ct2, hct2lt, henc2, hdec2⟩ :=
    decrypt_encrypt_aux C U hkparse hklen h2len h2lt
  have hs1 : (HexEncoder.stringify iv1).length = 32 := by
    rw [stringify_length h1lt, h1len]
  have hs2 : (HexEncoder.stringify iv2).length = 32 := by
    rw [stringify_length h2lt, h2len]
  have htk1 : (HexEncoder.stringify iv1 ++ HexEncoder.stringify ct1).take 32 =
      HexEncoder.stringify iv1 := by
    rw [← hs1]; exact List.take_left _ _
  have htk2 : (HexEncoder.stringify iv2 ++ HexEncoder.stringify ct2).take 32 =
      HexEncoder.stringify iv2 := by
    rw [← hs2]; exact List.take_left _ _
  have hne32 :
      (HexEncoder.stringify iv1 ++ HexEncoder.stringify ct1).take 32 ≠
      (HexEncoder.stringify iv2 ++ HexEncoder.stringify ct2).take 32 := by
    rw [htk1, htk2]
    intro hc
    exact hne (stringify_injective h1lt h2lt hc)
  refine ⟨_, _, henc1, henc2, hne32, ?_, hdec1, hdec2⟩
  intro hc
  exact hne32 (by rw [hc])

/-- Evaluation of C4 at a concrete cipher, codec, PBKDF2 primitive and a
pair of distinct IVs. -/
theorem C4_iv_randomization_witness :
    ∃ a1 a2,
      encrypt demoAES demoCodec (List.replicate 16 0) ['a']
        (hashPassword demoPBKDF2 demoCodec ['p'] ['s']) = some a1 ∧
      encrypt demoAES demoCodec (1 :: List.replicate 15 0) ['a']
        (hashPassword demoPBKDF2 demoCodec ['p'] ['s']) = some a2 ∧
      a1.take 32 ≠ a2.take 32 ∧ a1 ≠ a2 ∧
      decrypt demoAES demoCodec a1
        (hashPassword demoPBKDF2 demoCodec ['p'] ['s']) = some ['a'] ∧
      decrypt demoAES demoCodec a2
        (hashPassword demoPBKDF2 demoCodec ['p'] ['s']) = some ['a'] :=
  C4_iv_randomization demoAES demoPBKDF2 demoCodec ['a'] ['p'] ['s']
    (List.replicate 16 0) (1 :: List.replicate 15 0)
    (by simp) (by decide) (by simp) (by decide) (by decide)


/-- A hex digit is not parseInt whitespace, not a sign, and not an `x`/`X`
marker character. -/
theorem hexDigit_class {c : Char} (h : isHexDigitChar c = true) :
    isJsWhitespace c = false ∧ c ≠ '-' ∧ c ≠ '+' ∧ c ≠ 'x' ∧ c ≠ 'X' := by
  have hn : (48 ≤ c.toNat ∧ c.toNat ≤ 57) ∨ (97 ≤ c.toNat ∧ c.toNat ≤ 102) ∨
      (65 ≤ c.toNat ∧ c.toNat ≤ 70) := by
    simpa [isHexDigitChar, or_assoc] using h
  refine ⟨?_, ?_, ?_, ?_, ?_⟩
  · simp only [isJsWhitespace, List.mem_cons, List.not_mem_nil, or_false,
      decide_eq_false_iff_not]
    intro hmem
    omega
  · intro hc; subst hc; exact absurd hn (by decide)
  · intro hc; subst hc; exact absurd hn (by decide)
  · intro hc; subst hc; exact absurd hn (by decide)
  · intro hc; subst hc; exact absurd hn (by decide)

/-- JavaScript `parseInt(-, 16)` succeeds on any pair of hex digits. -/
theorem jsParseInt16_hex_pair {c1 c2 : Char} (h1 : isHexDigitChar c1 = true)
    (h2 : isHexDigitChar c2 = true) : (jsParseInt16 [c1, c2]).isSome := by
  obtain ⟨hw1, hm1, hp1, _, _⟩ := hexDigit_class h1
  obtain ⟨hw2, _, _, hx2, hX2⟩ := hexDigit_class h2
  have hd : List.dropWhile isJsWhitespace [c1, c2] = [c1, c2] := by
    rw [List.dropWhile_cons]
    simp [hw1]
  have e1 : (some c1 = some '-') = False := by simp [hm1]
  have e2 : (some c1 = some '+') = False := by simp [hp1]
  have hsm : stripHexMarker [c1, c2] = [c1, c2] := by
    unfold stripHexMarker
    rw [if_neg]
    have ht : List.take 2 [c1, c2] = [c1, c2] := rfl
    rintro (hc | hc) <;> rw [ht] at hc <;>
      injection hc with hca hcb <;> injection hcb with hcb hcc
    · exact hx2 hcb
    · exact hX2 hcb
  simp only [jsParseInt16, hd, List.head?_cons, e1, e2, or_self, if_false,
    List.tail_cons, hsm]
  rw [List.takeWhile_cons, if_pos h1, List.takeWhile_cons, if_pos h2]
  simp

/-- The members of `pairsOf` are pairs of characters of the string. -/
theorem pairsOf_mem : ∀ (s : List Char), ∀ p ∈ pairsOf s,
    ∃ c1 c2, p = [c1, c2] ∧ c1 ∈ s ∧ c2 ∈ s
  | [] => by simp [pairsOf]
  | [c] => by simp [pairsOf]
  | c1 :: c2 :: rest => by
    intro p hp
    rw [pairsOf] at hp
    rcases List.mem_cons.mp hp with rfl | hp
    · exact ⟨c1, c2, rfl, by simp, by simp⟩
    · obtain ⟨d1, d2, rfl, hd1, hd2⟩ := pairsOf_mem rest p hp
      exact ⟨d1, d2, rfl, by simp [hd1], by simp [hd2]⟩

/-- The pair loop fails exactly when some pair is NaN or the tail is odd. -/
theorem parsePairs_none_iff : ∀ (s : List Char),
    HexEncoder.parsePairs s = none ↔
      (∃ p ∈ pairsOf s, jsParseInt16 p = none) ∨ s.length % 2 = 1
  | [] => by simp [HexEncoder.parsePairs, pairsOf]
  | [c] => by simp [HexEncoder.parsePairs, pairsOf]
  | c1 :: c2 :: rest => by
    have ih := parsePairs_none_iff rest
    rw [HexEncoder.parsePairs, pairsOf]
    have hlen : (c1 :: c2 :: rest).length % 2 = rest.length % 2 := by
      simp only [List.length_cons]
      omega
    cases hp : jsParseInt16 [c1, c2] with
    | none =>
      simp only [List.length_cons]
      constructor
      · intro _
        exact Or.inl ⟨[c1, c2], by simp, hp⟩
      · intro _
        trivial
    | some v =>
      simp only [Option.map_eq_none', ih, List.mem_cons, List.length_cons]
      constructor
      · rintro (⟨p, hpm, hpn⟩ | hodd)
        · exact Or.inl ⟨p, Or.inr hpm, hpn⟩
        · right; omega
      · rintro (⟨p, (rfl | hpm), hpn⟩ | hodd)
        · rw [hp] at hpn; exact absurd hpn (by simp)
        · exact Or.inl ⟨p, hpm, hpn⟩
        · right; omega


/-- C5 counterexample: the claim requires every pair containing whitespace
(more generally any pair that is not two hex digits) to fail with
MalformedEncoding, but `HexEncoder.parse` accepts the even-length string of
a space followed by the digit `f` and decodes it to the byte 15, because
JavaScript `parseInt` trims leading whitespace inside the pair. -/
theorem C5_counterexample : HexEncoder.parse [' ', 'f'] = some [15] := by
  decide

/-- C5 (amended): `HexEncoder.parse` fails exactly when the string has odd
length or some consecutive 2-character pair is NaN under JavaScript
`parseInt(pair, 16)`, and every even-length string of hex-digit pairs
decodes without error. The original claim's clause that any pair which is
not two hex digits — e.g. one containing whitespace — always fails is
dropped: `parseInt` trims whitespace, signs and zero-ex markers inside a
pair, so some such pairs are accepted (see the counterexample). -/
theorem C5_parse_failure_characterization (s : List Char) :
    (HexEncoder.parse s = none ↔
      s.length % 2 = 1 ∨ ∃ p ∈ pairsOf s, jsParseInt16 p = none) ∧
    (s.length % 2 = 0 → (∀ c ∈ s, isHexDigitChar c) →
      (HexEncoder.parse s).isSome) := by
  constructor
  · unfold HexEncoder.parse
    by_cases hodd : s.length % 2 ≠ 0
    · rw [if_pos hodd]
      exact Iff.intro (fun _ => Or.inl (by omega)) (fun _ => rfl)
    · rw [if_neg hodd]
      rw [parsePairs_none_iff s, or_comm]
  · intro heven hhex
    have hne : ¬s.length % 2 ≠ 0 := by omega
    unfold HexEncoder.parse
    rw [if_neg hne]
    rcases hps : HexEncoder.parsePairs s with _ | bs
    · exfalso
      rcases (parsePairs_none_iff s).mp hps with ⟨p, hpm, hpn⟩ | hodd
      · obtain ⟨c1, c2, rfl, hc1, hc2⟩ := pairsOf_mem s p hpm
        have hsome := jsParseInt16_hex_pair (hhex c1 hc1) (hhex c2 hc2)
        rw [hpn] at hsome
        exact absurd hsome (by simp)
      · omega
    · simp

/-- Evaluation of C5 at the concrete string of two zero digits, discharging
both premises of the success clause. -/
theorem C5_parse_failure_characterization_witness :
    (HexEncoder.parse ['0', '0']).isSome :=
  (C5_parse_failure_characterization ['0', '0']).2 (by decide) (by decide)


/-- C6 counterexample: a concrete full-publish run in which the external
StatiCrypt generator invocation fails. The run exits 1 with the plaintext
artifact still on disk and no deletion event in the trace, although the
generator was invoked — so the plaintext had not been deleted before the
generator invocation, contrary to the claimed step order. -/
theorem C6_counterexample :
    (encryptMain demoAES demoPBKDF2 demoCodec demoExtFail (some ['p'])
        (List.replicate 16 0) (List.replicate 16 0) demoFS).1 = 1 ∧
    (encryptMain demoAES demoPBKDF2 demoCodec demoExtFail (some ['p'])
        (List.replicate 16 0) (List.replicate 16 0) demoFS).2.1.stats =
      some ['x'] ∧
    Event.ranStaticrypt ∈ (encryptMain demoAES demoPBKDF2 demoCodec
        demoExtFail (some ['p']) (List.replicate 16 0) (List.replicate 16 0)
        demoFS).2.2 ∧
    Event.deletedStats ∉ (encryptMain demoAES demoPBKDF2 demoCodec
        demoExtFail (some ['p']) (List.replicate 16 0) (List.replicate 16 0)
        demoFS).2.2 := by
  decide

/-- C6 (amended): in every run of the full-publish workflow, the plaintext
deletion happens only after the host-document patching and the external
generator invocation — whenever the deletion event occurs, the patch and
generator events precede it — and whenever the generator invocation fails,
the run exits 1 with the plaintext artifact not deleted and unchanged. -/
theorem C6_delete_after_generator (C : AESCore) (P : PBKDF2Bits)
    (U : UTF8Encoder) (ext : PublishExt) (password : Option (List Char))
    (iv entropy : List Nat) (fs : FS) :
    ∀ code fs2 ev,
      encryptMain C P U ext password iv entropy fs = (code, fs2, ev) →
      (Event.deletedStats ∈ ev →
        Event.ranStaticrypt ∈ ev ∧
        ev.indexOf Event.patchedIndex < ev.indexOf Event.deletedStats ∧
        ev.indexOf Event.ranStaticrypt < ev.indexOf Event.deletedStats) ∧
      (ext.staticryptOk = false →
        code = 1 ∧ Event.deletedStats ∉ ev ∧ fs2.stats = fs.stats) := by
  intro code fs2 ev h
  unfold encryptMain loadOrCreateConfig encryptPublishTail at h
  dsimp only at h
  repeat' split at h
  all_goals cases h
  all_goals try dsimp only
  all_goals refine ⟨by decide, fun hgen => ?_⟩
  all_goals first
    | exact ⟨rfl, by decide, rfl⟩
    | simp_all


/-- Evaluation of C6 at the concrete failing-generator run, discharging the
generator-failure premise: exit 1, no deletion, plaintext unchanged. -/
theorem C6_delete_after_generator_witness :
    (encryptMain demoAES demoPBKDF2 demoCodec demoExtFail (some ['p'])
        (List.replicate 16 0) (List.replicate 16 0) demoFS).1 = 1 ∧
    Event.deletedStats ∉ (encryptMain demoAES demoPBKDF2 demoCodec
        demoExtFail (some ['p']) (List.replicate 16 0) (List.replicate 16 0)
        demoFS).2.2 ∧
    (encryptMain demoAES demoPBKDF2 demoCodec demoExtFail (some ['p'])
        (List.replicate 16 0) (List.replicate 16 0) demoFS).2.1.stats =
      demoFS.stats :=
  (C6_delete_after_generator demoAES demoPBKDF2 demoCodec demoExtFail
      (some ['p']) (List.replicate 16 0) (List.replicate 16 0) demoFS
      _ _ _ rfl).2 rfl

/-- C7: in both encryption workflows the plaintext artifact is deleted only
after the ciphertext write — whenever the deletion event occurs, the
ciphertext-write event occurs earlier in the trace — and in any run that
aborts before the ciphertext write the plaintext artifact is unchanged. -/
theorem C7_delete_only_after_write (C : AESCore) (P : PBKDF2Bits)
    (U : UTF8Encoder) (ext : PublishExt) (password : Option (List Char))
    (iv entropy : List Nat) (fs : FS) :
    (∀ code fs2 ev,
      encryptMain C P U ext password iv entropy fs = (code, fs2, ev) →
      (Event.deletedStats ∈ ev → Event.wroteStatsEnc ∈ ev ∧
        ev.indexOf Event.wroteStatsEnc < ev.indexOf Event.deletedStats) ∧
      (Event.wroteStatsEnc ∉ ev → fs2.stats = fs.stats)) ∧
    (∀ code fs2 ev,
      dataEncryptMain C P U password iv fs = (code, fs2, ev) →
      (Event.deletedStats ∈ ev → Event.wroteStatsEnc ∈ ev ∧
        ev.indexOf Event.wroteStatsEnc < ev.indexOf Event.deletedStats) ∧
      (Event.wroteStatsEnc ∉ ev → fs2.stats = fs.stats)) := by
  refine ⟨?_, ?_⟩
  · intro code fs2 ev h
    unfold encryptMain loadOrCreateConfig encryptPublishTail at h
    dsimp only at h
    repeat' split at h
    all_goals cases h
    all_goals try dsimp only
    all_goals refine ⟨by decide, fun hw => ?_⟩
    all_goals first
      | rfl
      | exact absurd (by decide) hw
  · intro code fs2 ev h
    unfold dataEncryptMain at h
    dsimp only at h
    repeat' split at h
    all_goals cases h
    all_goals try dsimp only
    all_goals refine ⟨by decide, fun hw => ?_⟩
    all_goals first
      | rfl
      | exact absurd (by decide) hw

/-- Evaluation of C7 at a concrete successful data-only run in which both
the write and the deletion occur, in that order. -/
theorem C7_delete_only_after_write_witness :
    Event.wroteStatsEnc ∈ (dataEncryptMain demoAES demoPBKDF2 demoCodec
        (some ['p']) (List.replicate 16 0) demoFS).2.2 ∧
    (dataEncryptMain demoAES demoPBKDF2 demoCodec (some ['p'])
        (List.replicate 16 0) demoFS).2.2.indexOf Event.wroteStatsEnc <
      (dataEncryptMain demoAES demoPBKDF2 demoCodec (some ['p'])
        (List.replicate 16 0) demoFS).2.2.indexOf Event.deletedStats :=
  ((C7_delete_only_after_write demoAES demoPBKDF2 demoCodec demoExtFail
      (some ['p']) (List.replicate 16 0) (List.replicate 16 0) demoFS).2
    _ _ _ rfl).1 (by decide)


/-- C8: the decrypt workflow writes the plaintext artifact only when the
decrypted bytes pass the JSON validation: on any non-zero exit the
filesystem is unchanged and nothing was written; a write implies a
successful decryption whose output passed the validation and exit 0; and
when decryption fails or the validation rejects, the run exits 1 with the
filesystem unchanged. -/
theorem C8_decrypt_validation (C : AESCore) (P : PBKDF2Bits)
    (U : UTF8Encoder) (jsonOk : List Char → Bool)
    (password : Option (List Char)) (fs : FS) :
    ∀ code fs2 ev, decryptMain C P U jsonOk password fs = (code, fs2, ev) →
      (code ≠ 0 → fs2 = fs ∧ Event.wroteStats ∉ ev) ∧
      (Event.wroteStats ∈ ev →
        ∃ pw cfg e d, password = some pw ∧ fs.config = some cfg ∧
          fs.statsEnc = some e ∧
          decrypt C U e (hashPassword P U pw cfg.salt) = some d ∧
          jsonOk d = true ∧ fs2.stats = some d ∧ code = 0) ∧
      (∀ pw cfg e, password = some pw → fs.config = some cfg →
        fs.statsEnc = some e →
        (decrypt C U e (hashPassword P U pw cfg.salt) = none →
          code = 1 ∧ fs2 = fs) ∧
        (∀ d, decrypt C U e (hashPassword P U pw cfg.salt) = some d →
          jsonOk d = false → code = 1 ∧ fs2 = fs)) := by
  intro code fs2 ev h
  unfold decryptMain at h
  cases password with
  | none =>
    cases h
    exact ⟨fun _ => ⟨rfl, by decide⟩, fun hmem => absurd hmem (by decide),
      fun pw cfg e hpw => by simp at hpw⟩
  | some pw0 =>
    cases hse : fs.statsEnc with
    | none =>
      rw [hse] at h
      cases h
      exact ⟨fun hcode => absurd rfl hcode,
        fun hmem => absurd hmem (by decide),
        fun pw cfg e hpw hcfg he => absurd he (by simp)⟩
    | some encryptedData =>
      rw [hse] at h
      cases hcfg0 : fs.config with
      | none =>
        rw [hcfg0] at h
        cases h
        exact ⟨fun _ => ⟨rfl, by decide⟩,
          fun hmem => absurd hmem (by decide),
          fun pw cfg e hpw hcfg he => absurd hcfg (by simp)⟩
      | some config =>
        rw [hcfg0] at h
        dsimp only at h
        cases hdec0 : decrypt C U encryptedData
            (hashPassword P U pw0 config.salt) with
        | none =>
          rw [hdec0] at h
          cases h
          refine ⟨fun _ => ⟨rfl, by decide⟩,
            fun hmem => absurd hmem (by decide),
            fun pw cfg e hpw hcfg he =>
              ⟨fun _ => ⟨rfl, rfl⟩, fun d _ _ => ⟨rfl, rfl⟩⟩⟩
        | some decryptedData =>
          rw [hdec0] at h
          dsimp only at h
          split at h
          · rename_i hjson
            cases h
            refine ⟨fun hcode => absurd rfl hcode,
              fun _ => ⟨pw0, config, encryptedData, decryptedData, rfl,
                rfl, rfl, hdec0, hjson, rfl, rfl⟩,
              fun pw cfg e hpw hcfg he => ?_⟩
            obtain rfl := Option.some.inj hpw
            obtain rfl := Option.some.inj hcfg
            obtain rfl := Option.some.inj he
            refine ⟨fun hdn => ?_, fun d hd hjf => ?_⟩
            · rw [hdn] at hdec0
              exact absurd hdec0 (by simp)
            · rw [hdec0] at hd
              obtain rfl := Option.some.inj hd
              rw [hjson] at hjf
              exact absurd hjf (by simp)
          · rename_i hjson
            cases h
            exact ⟨fun _ => ⟨rfl, by decide⟩,
              fun hmem => absurd hmem (by decide),
              fun pw cfg e hpw hcfg he =>
                ⟨fun _ => ⟨rfl, rfl⟩, fun d _ _ => ⟨rfl, rfl⟩⟩⟩

/-- Evaluation of C8 at a concrete failing run (no password supplied): the
exit code is non-zero, so the filesystem is untouched and no plaintext
artifact was written. -/
theorem C8_decrypt_validation_witness :
    (decryptMain demoAES demoPBKDF2 demoCodec (fun _ => true) none
        demoFS).2.1 = demoFS ∧
    Event.wroteStats ∉ (decryptMain demoAES demoPBKDF2 demoCodec
        (fun _ => true) none demoFS).2.2 :=
  (C8_decrypt_validation demoAES demoPBKDF2 demoCodec (fun _ => true) none
      demoFS _ _ _ rfl).1 (by decide)

/-- C9 counterexample: with no encrypted artifact present but also no
password supplied, the decrypt workflow exits 1, not 0 — the credential
check runs before the missing-artifact no-op check, so absence of the
artifact alone does not guarantee a successful exit. -/
theorem C9_counterexample :
    (decryptMain demoAES demoPBKDF2 demoCodec (fun _ => true) none
      demoFS).1 = 1 := by
  decide

/-- C9 (amended): whenever a password is supplied and no encrypted artifact
exists, the decrypt workflow exits 0 as a pure no-op — unchanged filesystem,
no events — without consulting the salt config or the key-derivation
primitive (the result is the same for every config state and primitive);
when the password is missing, the credential check fires first and the run
exits 1. -/
theorem C9_noop_without_artifact (C : AESCore) (P : PBKDF2Bits)
    (U : UTF8Encoder) (jsonOk : List Char → Bool) (pw : List Char) (fs : FS)
    (h : fs.statsEnc = none) :
    decryptMain C P U jsonOk (some pw) fs = (0, fs, []) ∧
    decryptMain C P U jsonOk none fs = (1, fs, []) := by
  unfold decryptMain
  rw [h]
  exact ⟨rfl, rfl⟩

/-- Evaluation of C9 at the demonstration state, which has no encrypted
artifact. -/
theorem C9_noop_without_artifact_witness :
    decryptMain demoAES demoPBKDF2 demoCodec (fun _ => true) (some ['p'])
      demoFS = (0, demoFS, []) ∧
    decryptMain demoAES demoPBKDF2 demoCodec (fun _ => true) none
      demoFS = (1, demoFS, []) :=
  C9_noop_without_artifact demoAES demoPBKDF2 demoCodec (fun _ => true)
    ['p'] demoFS rfl

/-- C10: the data-only encryption script never creates a salt — whenever the
salt config file is absent it exits 1 with the filesystem unchanged and no
events, hence before any key derivation, ciphertext write or plaintext
deletion — whereas the full workflow's `loadOrCreateConfig` generates a
fresh salt and persists it when the config is absent. -/
theorem C10_data_only_requires_config (C : AESCore) (P : PBKDF2Bits)
    (U : UTF8Encoder) (password : Option (List Char)) (iv entropy : List Nat)
    (fs : FS) (h : fs.config = none) :
    dataEncryptMain C P U password iv fs = (1, fs, []) ∧
    (loadOrCreateConfig entropy fs).1 = ⟨generateRandomSalt entropy⟩ ∧
    (loadOrCreateConfig entropy fs).2.1.config =
      some ⟨generateRandomSalt entropy⟩ := by
  refine ⟨?_, ?_, ?_⟩
  · unfold dataEncryptMain
    cases password with
    | none => rfl
    | some pw =>
      cases hstats : fs.stats with
      | none => rfl
      | some d => rw [h]
  · unfold loadOrCreateConfig
    rw [h]
  · unfold loadOrCreateConfig
    rw [h]

/-- Evaluation of C10 at the demonstration state without a salt config. -/
theorem C10_data_only_requires_config_witness :
    dataEncryptMain demoAES demoPBKDF2 demoCodec (some ['p'])
      (List.replicate 16 0) demoFSNoCfg = (1, demoFSNoCfg, []) ∧
    (loadOrCreateConfig (List.replicate 16 0) demoFSNoCfg).1 =
      ⟨generateRandomSalt (List.replicate 16 0)⟩ ∧
    (loadOrCreateConfig (List.replicate 16 0) demoFSNoCfg).2.1.config =
      some ⟨generateRandomSalt (List.replicate 16 0)⟩ :=
  C10_data_only_requires_config demoAES demoPBKDF2 demoCodec (some ['p'])
    (List.replicate 16 0) (List.replicate 16 0) demoFSNoCfg rfl

end StatsTracker
